import Mathlib

/-!
Verification of the identity-matching and caching subsystem of
r2_facial_recognition (client/local/recognition.py).

The Python module is shallowly embedded here.  External collaborators
(the face_recognition library and image decoding) are treated as opaque
parameters, following the specification which excludes them from scope:
detection results (face locations and encodings of a probe image) and the
match policy (compare_faces) are inputs, while the nearest-neighbor
selection, labeling, cache file handling and directory loading logic are
translated statement by statement from the source.

Embedding conventions:
  - numpy float vectors become lists of rationals (Embedding);
  - the Euclidean distance used by face_recognition.face_distance is
    modelled through its square (sqDist, a rational, executable) together
    with Real.sqrt of it; numpy.argmin over Euclidean distances equals
    argmin over squared distances since sqrt is monotone, and the bridge
    is proved (sqrt_sqDist_le_iff, sqrt_sqDist_lt_iff);
  - the known_encodings object of check_faces (recognition.py line 96) is
    a Python 3 map object: a one-shot lazy iterator built once before the
    per-face loop.  It is modelled as explicit iterator state
    (EncodingsIter) threaded through the loop: a consumer that iterates
    it to its end, as any collaborator meeting the one-flag-per-known-
    embedding contract must, receives exactly the remaining elements and
    leaves the iterator exhausted;
  - Python exceptions become the Except monad with an explicit error type;
  - the filesystem seen by the cache becomes an association list from
    paths to file contents, where content is either a valid numpy .npy
    serialization of an embedding (what numpy.load can parse) or the raw
    bytes produced by ndarray.tobytes (which numpy.load rejects with
    ValueError when allow_pickle is false);
  - Python dict update preserves insertion order and overwrites in place:
    dictInsert below implements exactly that on association lists.
-/

namespace R2Facial

/-- A face embedding vector: fixed-length sequence of numbers
(numpy.ndarray of floats in the source). -/
abbrev Embedding := List ℚ

/-- A face bounding box as returned by face_recognition.face_locations:
a (top, right, bottom, left) tuple of pixel coordinates. -/
abbrev Box := ℤ × ℤ × ℤ × ℤ

/-- The in-memory registry: the Python dict mapping name to encoding,
modelled as an insertion-ordered association list with unique keys. -/
abbrev Registry := List (String × Embedding)

/-- Python exceptions raised by the embedded code.  FileNotFoundError is a
subclass of OSError and is modelled as osError, which is what the
except-OSError clause in check_and_add catches. -/
inductive PyError
  | osError
  | valueError
  | indexError
  | runtimeError
  deriving DecidableEq, Repr

/-- Content of a cache file.  npy is a valid numpy .npy serialization of
an embedding, the only thing numpy.load (allow_pickle false) accepts;
raw is the headerless byte dump produced by ndarray.tobytes, which
numpy.load rejects with ValueError. -/
inductive FileData
  | npy (e : Embedding)
  | raw (e : Embedding)
  deriving DecidableEq, Repr

/-- The filesystem visible to the cache: path to content. -/
abbrev FileSystem := List (String × FileData)

/-! ### Python string and path helpers -/

/-- Index of the last occurrence of a character in a list, if any. -/
def rindexList (l : List Char) (c : Char) : Option Nat :=
  match l.reverse.findIdx? (fun x => x == c) with
  | none => none
  | some i => some (l.length - 1 - i)

/-- Python str.rindex: raises ValueError when the character is absent. -/
def pyRindex (s : String) (c : Char) : Except PyError Nat :=
  match rindexList s.data c with
  | none => Except.error PyError.valueError
  | some i => Except.ok i

/-- Python string indexing s[i] for a nonnegative index: raises IndexError
when out of range, else yields the character. -/
def pyCharAt (s : String) (i : Nat) : Except PyError Char :=
  match s.data.get? i with
  | none => Except.error PyError.indexError
  | some ch => Except.ok ch

/-- Python slice s[:n]. -/
def strTake (s : String) (n : Nat) : String := String.mk (s.data.take n)

/-- os.path.split: head and tail around the last slash. -/
def os_path_split (p : String) : String × String :=
  match rindexList p.data '/' with
  | none => ("", p)
  | some i => (String.mk (p.data.take i), String.mk (p.data.drop (i + 1)))

/-- os.path.join for the two-argument uses in the source. -/
def os_path_join (a b : String) : String := a ++ "/" ++ b

/-! ### Module constants (recognition.py lines 10 and 11) -/

def CACHE_LOCATION : String := ".cache"

def IMG_EXTs : List String := [".jpg", ".jpeg", ".png"]

/-! ### EncodingCache (get_cached and add_cache) -/

/-- The deterministic cache path cache_location/name.encoding used by both
get_cached and add_cache. -/
def encodingPath (cacheLocation name : String) : String :=
  os_path_join cacheLocation (name ++ ".encoding")

/-- get_cached: numpy.load of the cache path with allow_pickle false.
A missing file raises FileNotFoundError (an OSError); a file holding a
valid .npy serialization parses back to its embedding; a file holding raw
tobytes output has no .npy magic header, so numpy.load raises ValueError. -/
def get_cached (fs : FileSystem) (name : String)
    (cacheLocation : String := CACHE_LOCATION) : Except PyError Embedding :=
  match List.lookup (encodingPath cacheLocation name) fs with
  | none => Except.error PyError.osError
  | some (FileData.npy e) => Except.ok e
  | some (FileData.raw _) => Except.error PyError.valueError

/-- Overwrite-or-append update of an association list, keeping the
position of an existing key (the filesystem analogue of writing a file). -/
def fsWrite (fs : FileSystem) (p : String) (d : FileData) : FileSystem :=
  if fs.any (fun q => q.1 == p) then
    fs.map (fun q => if q.1 == p then (p, d) else q)
  else fs ++ [(p, d)]

/-- add_cache: open(path, mode rb+), seek(0), truncate, write tobytes.
Mode rb+ requires the file to already exist, so a missing file raises
FileNotFoundError (an OSError); an existing file is truncated and
rewritten with the raw tobytes serialization of the encoding. -/
def add_cache (fs : FileSystem) (name : String) (encoding : Embedding)
    (cacheLocation : String := CACHE_LOCATION) : Except PyError FileSystem :=
  match List.lookup (encodingPath cacheLocation name) fs with
  | none => Except.error PyError.osError
  | some _ =>
    Except.ok (fsWrite fs (encodingPath cacheLocation name) (FileData.raw encoding))

/-! ### IdentityRegistry (load_images and check_and_add) -/

/-- Python dict assignment mappings[k] = v: overwrites in place when the
key exists (keeping insertion order), else appends at the end. -/
def dictInsert (m : Registry) (k : String) (v : Embedding) : Registry :=
  if m.any (fun p => p.1 == k) then
    m.map (fun p => if p.1 == k then (k, v) else p)
  else m ++ [(k, v)]

/-- Taking index 0 of the list returned by face_recognition.face_encodings:
raises IndexError when no face was detected in the reference image. -/
def firstEncoding (encs : List Embedding) : Except PyError Embedding :=
  match encs with
  | [] => Except.error PyError.indexError
  | e :: _ => Except.ok e

/-- check_and_add, the per-file resolution step nested in load_images.
The parameter enc is the opaque composition of the external collaborators
face_recognition.load_image_file and face_recognition.face_encodings,
mapping an image path to the list of embeddings found in it.
Note the source reads the cache under file_ but writes it under the
extension-stripped filename_, exactly as embedded here. -/
def check_and_add (enc : String → List Embedding) (st : Registry × FileSystem)
    (path_ file_ : String) (cache : Bool) (cacheLocation : String) :
    Except PyError (Registry × FileSystem) :=
  match pyRindex file_ '.' with
  | Except.error e => Except.error e
  | Except.ok dotIdx =>
    match cache with
    | true =>
      match get_cached st.2 file_ cacheLocation with
      | Except.ok e => Except.ok (dictInsert st.1 (strTake file_ dotIdx) e, st.2)
      | Except.error PyError.osError =>
        match firstEncoding (enc (os_path_join path_ file_)) with
        | Except.error e => Except.error e
        | Except.ok encoding =>
          match add_cache st.2 (strTake file_ dotIdx) encoding cacheLocation with
          | Except.error e => Except.error e
          | Except.ok fs2 =>
            Except.ok (dictInsert st.1 (strTake file_ dotIdx) encoding, fs2)
      | Except.error e => Except.error e
    | false =>
      match firstEncoding (enc (os_path_join path_ file_)) with
      | Except.error e => Except.error e
      | Except.ok encoding =>
        Except.ok (dictInsert st.1 (strTake file_ dotIdx) encoding, st.2)

/-- The directory branch of load_images: for every file visited by
os.walk, take the index of the last dot, test whether the single character
after it is a member of IMG_EXTs (the has-recognized-extension test of the
source, written file[ext_idx+1] in IMG_EXTs), and when it passes, strip the
extension and run check_and_add on the stripped name. -/
def load_images_dir (enc : String → List Embedding) (st : Registry × FileSystem)
    (path : String) (files : List String) (cache : Bool) (cacheLocation : String) :
    Except PyError (Registry × FileSystem) :=
  files.foldlM (fun st file =>
    match pyRindex file '.' with
    | Except.error e => Except.error e
    | Except.ok extIdx =>
      match pyCharAt file (extIdx + 1) with
      | Except.error e => Except.error e
      | Except.ok ch =>
        if String.singleton ch ∈ IMG_EXTs then
          check_and_add enc st path (strTake file extIdx) cache cacheLocation
        else
          Except.ok st) st

/-- The single-file branch of load_images: index of the last dot of the
whole path, the warning test (whose only effect is a print, but whose
indexing can raise), then check_and_add on the os.path.split pieces. -/
def load_images_file (enc : String → List Embedding) (st : Registry × FileSystem)
    (path : String) (cache : Bool) (cacheLocation : String) :
    Except PyError (Registry × FileSystem) :=
  match pyRindex path '.' with
  | Except.error e => Except.error e
  | Except.ok extIdx =>
    match pyCharAt path (extIdx + 1) with
    | Except.error e => Except.error e
    | Except.ok _ =>
      check_and_add enc st (os_path_split path).1 (os_path_split path).2 cache
        cacheLocation

/-- What os.path.isdir and os.path.isfile report for the given path:
a directory (with the files os.walk yields), a file, or neither. -/
inductive PathKind
  | dir (files : List String)
  | file
  | neither

/-- load_images: dispatch on the kind of path, raising RuntimeError when
the path is neither a directory nor a file. -/
def load_images (enc : String → List Embedding) (kind : PathKind)
    (st : Registry × FileSystem) (path : String) (cache : Bool)
    (cacheLocation : String) : Except PyError (Registry × FileSystem) :=
  match kind with
  | PathKind.dir files => load_images_dir enc st path files cache cacheLocation
  | PathKind.file => load_images_file enc st path cache cacheLocation
  | PathKind.neither => Except.error PyError.runtimeError

/-! ### FaceMatcher (check_faces) -/

/-- Squared Euclidean distance between two embeddings (componentwise,
vectors of equal length in every use). -/
def sqDist : Embedding → Embedding → ℚ
  | [], _ => 0
  | _ :: _, [] => 0
  | x :: xs, y :: ys => (x - y) ^ 2 + sqDist xs ys

/-- The scan performed by numpy.argmin: carries the best index and best
value so far, replacing them only on a strictly smaller element, so the
first occurrence of the minimum wins. -/
def argminAux (bi : Nat) (bv : ℚ) (i : Nat) : List ℚ → Nat
  | [] => bi
  | x :: xs =>
    if x < bv then argminAux i x (i + 1) xs else argminAux bi bv (i + 1) xs

/-- numpy.argmin: index of the first minimum; raises ValueError on an
empty sequence, modelled by none. -/
def argminIdx : List ℚ → Option Nat
  | [] => none
  | x :: xs => some (argminAux 0 x 1 xs)

/-- The state of the one-shot known_encodings iterator of recognition.py
line 96 (a Python 3 map object): the elements it has not yet produced. -/
abbrev EncodingsIter := List Embedding

/-- The elements a consumer receives when it iterates a one-shot iterator
to its end: exactly the remaining ones. -/
def iterElems (it : EncodingsIter) : List Embedding := it

/-- The iterator state after a consumer has iterated it to its end:
exhausted, whatever was left before. -/
def iterAfter (_it : EncodingsIter) : EncodingsIter := []

/-- The body of the per-face loop in check_faces, with the shared
one-shot known_encodings iterator made explicit.  compare_faces (the
opaque collaborator compare, contracted to one flag per known embedding
it is given) iterates the iterator to its end, so it receives the
remaining elements and leaves the iterator exhausted; face_distance then
iterates the same iterator, computing the squared distances (standing in
for the Euclidean ones) of whatever remains; numpy.argmin raises
ValueError on an empty sequence; otherwise the label is chosen by the
match flag at the closest index, list indexing matches[closest] and
ordered_map[closest] raising IndexError when out of range.  Returns the
outcome together with the iterator state the next iteration sees. -/
def checkOneFace (compare : List Embedding → Embedding → List Bool)
    (orderedMap : Registry) (it : EncodingsIter) (unknownFace : Embedding) :
    Except PyError String × EncodingsIter :=
  let matchFlags := compare (iterElems it) unknownFace
  let faceDistances :=
    (iterElems (iterAfter it)).map (fun k => sqDist k unknownFace)
  (match argminIdx faceDistances with
   | none => Except.error PyError.valueError
   | some closestIdx =>
     match matchFlags.get? closestIdx, orderedMap.get? closestIdx with
     | some mt, some entry =>
         Except.ok (if mt then entry.1 else "Unknown")
     | _, _ => Except.error PyError.indexError,
   iterAfter (iterAfter it))

/-- The for-loop of check_faces accumulating the identities list in
order, threading the shared one-shot iterator across the iterations and
aborting at the first raised exception. -/
def checkFacesLoop (compare : List Embedding → Embedding → List Bool)
    (m : Registry) : EncodingsIter → List Embedding → Except PyError (List String)
  | _, [] => Except.ok []
  | it, u :: rest =>
    match checkOneFace compare m it u with
    | (Except.error e, _) => Except.error e
    | (Except.ok name, it2) =>
      match checkFacesLoop compare m it2 rest with
      | Except.error e => Except.error e
      | Except.ok names => Except.ok (name :: names)

/-- check_faces: the probe image is represented by the outputs of the
opaque detection collaborator on it, unknownFaceLocations from
face_recognition.face_locations and unknownFaceEncodings from
face_recognition.face_encodings (same order).  The known_encodings
iterator is built once from the mappings, before the loop, and shared by
all iterations; returns the parallel sequences (identities, locations). -/
def check_faces (compare : List Embedding → Embedding → List Bool)
    (mappings : Registry) (unknownFaceLocations : List Box)
    (unknownFaceEncodings : List Embedding) :
    Except PyError (List String × List Box) :=
  match checkFacesLoop compare mappings (mappings.map Prod.snd)
      unknownFaceEncodings with
  | Except.ok identities => Except.ok (identities, unknownFaceLocations)
  | Except.error e => Except.error e

/-- check_faces with its state made explicit: the source receives the
mappings dict by reference and only ever reads it (list(mappings.items())),
so the explicit-state embedding returns the registry alongside the result. -/
def check_faces_st (compare : List Embedding → Embedding → List Bool)
    (mappings : Registry) (unknownFaceLocations : List Box)
    (unknownFaceEncodings : List Embedding) :
    Except PyError ((List String × List Box) × Registry) :=
  match checkFacesLoop compare mappings (mappings.map Prod.snd)
      unknownFaceEncodings with
  | Except.ok identities =>
      Except.ok ((identities, unknownFaceLocations), mappings)
  | Except.error e => Except.error e

/-! ### List helper lemmas -/

lemma getD_append_lt {α : Type _} (d : α) :
    ∀ (l l2 : List α) (n : Nat), n < l.length → (l ++ l2).getD n d = l.getD n d := by
  intro l
  induction l with
  | nil => intro l2 n hn; simp at hn
  | cons a t ih =>
    intro l2 n hn
    cases n with
    | zero => simp
    | succ n =>
      simp only [List.cons_append, List.getD_cons_succ]
      exact ih l2 n (by simpa using hn)

lemma getD_append_len {α : Type _} (d : α) :
    ∀ (l : List α) (x : α) (l2 : List α), (l ++ x :: l2).getD l.length d = x := by
  intro l
  induction l with
  | nil => intro x l2; simp
  | cons a t ih =>
    intro x l2
    simpa only [List.cons_append, List.length_cons, List.getD_cons_succ] using ih x l2

lemma get?_eq_some_getD {α : Type _} (d : α) :
    ∀ (l : List α) (k : Nat), k < l.length → l.get? k = some (l.getD k d) := by
  intro l
  induction l with
  | nil => intro k hk; simp at hk
  | cons a t ih =>
    intro k hk
    cases k with
    | zero => simp
    | succ k =>
      simp only [List.get?_cons_succ, List.getD_cons_succ]
      exact ih k (by simpa using hk)

lemma getD_map_dist (u : Embedding) :
    ∀ (l : List Embedding) (j : Nat), j < l.length →
      (l.map (fun e => sqDist e u)).getD j 0 = sqDist (l.getD j []) u := by
  intro l
  induction l with
  | nil => intro j hj; simp at hj
  | cons a t ih =>
    intro j hj
    cases j with
    | zero => simp
    | succ j =>
      simp only [List.map_cons, List.getD_cons_succ]
      exact ih j (by simpa using hj)

lemma getD_map_snd :
    ∀ (m : Registry) (k : Nat), k < m.length →
      (m.map Prod.snd).getD k [] = (m.getD k ("", [])).2 := by
  intro m
  induction m with
  | nil => intro k hk; simp at hk
  | cons a t ih =>
    intro k hk
    cases k with
    | zero => simp
    | succ k =>
      simp only [List.map_cons, List.getD_cons_succ]
      exact ih k (by simpa using hk)

/-! ### Distance lemmas: the executable squared distance against the
Euclidean distance of the specification -/

lemma sqDist_nonneg : ∀ (a b : Embedding), 0 ≤ sqDist a b := by
  intro a
  induction a with
  | nil => intro b; simp [sqDist]
  | cons x xs ih =>
    intro b
    cases b with
    | nil => simp [sqDist]
    | cons y ys =>
      simp only [sqDist]
      exact add_nonneg (sq_nonneg _) (ih ys)

/-- Comparing Euclidean distances is comparing squared distances: the
nearest-neighbor selection over Real.sqrt of the squared distances is the
selection over the squared distances themselves. -/
lemma sqrt_sqDist_le_iff (a b c d : Embedding) :
    Real.sqrt ((sqDist a b : ℚ) : ℝ) ≤ Real.sqrt ((sqDist c d : ℚ) : ℝ) ↔
      sqDist a b ≤ sqDist c d := by
  rw [Real.sqrt_le_sqrt_iff (by exact_mod_cast sqDist_nonneg c d)]
  exact_mod_cast Iff.rfl

lemma sqrt_sqDist_lt_iff (a b c d : Embedding) :
    Real.sqrt ((sqDist a b : ℚ) : ℝ) < Real.sqrt ((sqDist c d : ℚ) : ℝ) ↔
      sqDist a b < sqDist c d := by
  rw [Real.sqrt_lt_sqrt_iff (by exact_mod_cast sqDist_nonneg a b)]
  exact_mod_cast Iff.rfl

lemma sqrt_sqDist_eq_iff (a b c d : Embedding) :
    Real.sqrt ((sqDist a b : ℚ) : ℝ) = Real.sqrt ((sqDist c d : ℚ) : ℝ) ↔
      sqDist a b = sqDist c d := by
  rw [Real.sqrt_inj (by exact_mod_cast sqDist_nonneg a b)
    (by exact_mod_cast sqDist_nonneg c d)]
  exact_mod_cast Iff.rfl

/-! ### numpy.argmin: first index of the minimum -/

lemma argminAux_spec :
    ∀ (xs pre : List ℚ) (bi : Nat), bi < pre.length →
    (∀ j, j < pre.length → pre.getD bi 0 ≤ pre.getD j 0) →
    (∀ j, j < bi → pre.getD bi 0 < pre.getD j 0) →
    argminAux bi (pre.getD bi 0) pre.length xs < (pre ++ xs).length ∧
    (∀ j, j < (pre ++ xs).length →
      (pre ++ xs).getD (argminAux bi (pre.getD bi 0) pre.length xs) 0 ≤
        (pre ++ xs).getD j 0) ∧
    (∀ j, j < argminAux bi (pre.getD bi 0) pre.length xs →
      (pre ++ xs).getD (argminAux bi (pre.getD bi 0) pre.length xs) 0 <
        (pre ++ xs).getD j 0) := by
  intro xs
  induction xs with
  | nil =>
    intro pre bi hbi hmin hfirst
    simp only [argminAux, List.append_nil]
    exact ⟨hbi, hmin, hfirst⟩
  | cons x xs ih =>
    intro pre bi hbi hmin hfirst
    have hgetx : (pre ++ [x]).getD pre.length 0 = x := by
      exact getD_append_len 0 pre x []
    have hgetbi : (pre ++ [x]).getD bi 0 = pre.getD bi 0 := getD_append_lt 0 pre [x] bi hbi
    have hlen1 : (pre ++ [x]).length = pre.length + 1 := by simp
    have happ : (pre ++ [x]) ++ xs = pre ++ x :: xs := by simp
    by_cases hx : x < pre.getD bi 0
    · have h2 := ih (pre ++ [x]) pre.length (by simp) ?hm ?hf
      case hm =>
        intro j hj
        rw [hgetx]
        rcases Nat.lt_succ_iff_lt_or_eq.mp (by simpa using hj) with hj2 | rfl
        · rw [getD_append_lt 0 pre [x] j hj2]
          exact le_of_lt (lt_of_lt_of_le hx (hmin j hj2))
        · rw [hgetx]
      case hf =>
        intro j hj
        rw [hgetx, getD_append_lt 0 pre [x] j hj]
        exact lt_of_lt_of_le hx (hmin j hj)
      rw [hgetx, hlen1, happ] at h2
      simpa only [argminAux, if_pos hx] using h2
    · have h2 := ih (pre ++ [x]) bi (by simp; omega) ?hm2 ?hf2
      case hm2 =>
        intro j hj
        rw [hgetbi]
        rcases Nat.lt_succ_iff_lt_or_eq.mp (by simpa using hj) with hj2 | rfl
        · rw [getD_append_lt 0 pre [x] j hj2]
          exact hmin j hj2
        · rw [hgetx]
          exact le_of_not_lt hx
      case hf2 =>
        intro j hj
        rw [hgetbi, getD_append_lt 0 pre [x] j (Nat.lt_trans hj hbi)]
        exact hfirst j hj
      rw [hgetbi, hlen1, happ] at h2
      simpa only [argminAux, if_neg hx] using h2

lemma argminIdx_spec (l : List ℚ) (hl : l ≠ []) :
    ∃ k, argminIdx l = some k ∧ k < l.length ∧
      (∀ j, j < l.length → l.getD k 0 ≤ l.getD j 0) ∧
      (∀ j, j < k → l.getD k 0 < l.getD j 0) := by
  match l, hl with
  | x :: xs, _ =>
    have h := argminAux_spec xs [x] 0 (by simp)
      (fun j hj => by
        have : j = 0 := by simpa using hj
        subst this
        exact le_refl _)
      (fun j hj => by omega)
    simp only [List.getD_cons_zero, List.length_cons, List.length_nil,
      List.singleton_append] at h
    exact ⟨argminAux 0 x 1 xs, rfl, by simpa using h.1, h.2.1, h.2.2⟩

/-- argminIdx picks exactly the first index attaining the minimum. -/
lemma argminIdx_eq_of_first_min (l : List ℚ) (p : Nat) (hp : p < l.length)
    (hmin : ∀ j, j < l.length → l.getD p 0 ≤ l.getD j 0)
    (hfirst : ∀ j, j < p → l.getD p 0 < l.getD j 0) :
    argminIdx l = some p := by
  have hl : l ≠ [] := by
    intro h
    rw [h] at hp
    simp at hp
  obtain ⟨k, hk, hklt, hkmin, hkfirst⟩ := argminIdx_spec l hl
  have : k = p := by
    rcases lt_trichotomy k p with h | h | h
    · exact absurd (hkmin p hp) (not_le_of_lt (hfirst k h))
    · exact h
    · exact absurd (hmin k hklt) (not_le_of_lt (hkfirst p h))
  rw [hk, this]

/-! ### Python dict lemmas for dictInsert -/

lemma dictInsert_idem (m : Registry) (k : String) (v : Embedding) :
    dictInsert (dictInsert m k v) k v = dictInsert m k v := by
  unfold dictInsert
  by_cases h : m.any (fun p => p.1 == k)
  · rw [if_pos h]
    have hany2 : (m.map (fun p => if p.1 == k then (k, v) else p)).any
        (fun p => p.1 == k) = true := by
      obtain ⟨p, hp, hpk⟩ := List.any_eq_true.mp h
      refine List.any_eq_true.mpr ⟨(k, v), List.mem_map.mpr ⟨p, hp, by rw [if_pos hpk]⟩, ?_⟩
      simp
    rw [if_pos hany2, List.map_map]
    refine List.map_congr_left ?_
    intro p _
    by_cases hpk : p.1 == k
    · simp only [Function.comp, if_pos hpk]
      simp
    · simp only [Function.comp, if_neg hpk, if_neg hpk]
  · rw [if_neg h]
    have hany2 : (m ++ [(k, v)]).any (fun p => p.1 == k) = true := by
      refine List.any_eq_true.mpr ⟨(k, v), by simp, by simp⟩
    rw [if_pos hany2, List.map_append]
    have hm : m.map (fun p => if p.1 == k then (k, v) else p) = m := by
      conv_rhs => rw [← List.map_id m]
      refine List.map_congr_left ?_
      intro p hp
      have hpk : ¬(p.1 == k) = true := by
        intro hpk
        exact h (List.any_eq_true.mpr ⟨p, hp, hpk⟩)
      simp [hpk]
    rw [hm]
    simp

lemma countP_key_map_overwrite (m : Registry) (k : String) (v : Embedding) :
    (m.map (fun p => if p.1 == k then (k, v) else p)).countP (fun p => p.1 == k) =
      m.countP (fun p => p.1 == k) := by
  induction m with
  | nil => simp
  | cons a t ih =>
    by_cases h : a.1 == k
    · simp only [List.map_cons, if_pos h, List.countP_cons, ih]
      simp [h]
    · simp only [List.map_cons, if_neg h, List.countP_cons, ih]

/-- After a dict assignment there is exactly one entry carrying the
assigned key, provided the dict held no duplicate keys before. -/
lemma dictInsert_countP (m : Registry) (k : String) (v : Embedding)
    (hnodup : (m.map Prod.fst).Nodup) :
    (dictInsert m k v).countP (fun p => p.1 == k) = 1 := by
  unfold dictInsert
  by_cases h : m.any (fun p => p.1 == k)
  · rw [if_pos h, countP_key_map_overwrite]
    have hcount : m.countP (fun p => p.1 == k) = (m.map Prod.fst).count k := by
      rw [List.count, List.countP_map]
      rfl
    obtain ⟨p, hp, hpk⟩ := List.any_eq_true.mp h
    have hmem : k ∈ m.map Prod.fst :=
      List.mem_map.mpr ⟨p, hp, (beq_iff_eq.mp hpk)⟩
    have hle : (m.map Prod.fst).count k ≤ 1 := List.nodup_iff_count_le_one.mp hnodup k
    have hge : 0 < (m.map Prod.fst).count k := List.count_pos_iff.mpr hmem
    rw [hcount]
    omega
  · rw [if_neg h, List.countP_append]
    have hz : m.countP (fun p => p.1 == k) = 0 := by
      refine List.countP_eq_zero.mpr ?_
      intro p hp hpk
      exact h (List.any_eq_true.mpr ⟨p, hp, hpk⟩)
    simp [hz]

lemma lookup_map_overwrite (m : Registry) (k k2 : String) (v : Embedding)
    (hne : k2 ≠ k) :
    (m.map (fun p => if p.1 == k then (k, v) else p)).lookup k2 = m.lookup k2 := by
  induction m with
  | nil => simp
  | cons a t ih =>
    have hk2k : (k2 == k) = false := by simpa using hne
    by_cases h : a.1 == k
    · have hk : a.1 = k := beq_iff_eq.mp h
      have hk2a : (k2 == a.1) = false := by rw [hk]; exact hk2k
      cases a with
      | mk a1 a2 =>
        simp only [List.map_cons, if_pos h, List.lookup_cons]
        simp only at hk2a hk2k
        rw [hk2k, hk2a]
        exact ih
    · cases a with
      | mk a1 a2 =>
        simp only [List.map_cons, if_neg h, List.lookup_cons]
        cases hk2a : k2 == a1
        · exact ih
        · rfl

lemma lookup_append_single (m : Registry) (k k2 : String) (v : Embedding)
    (hne : k2 ≠ k) :
    (m ++ [(k, v)]).lookup k2 = m.lookup k2 := by
  have hk2k : (k2 == k) = false := by simpa using hne
  induction m with
  | nil =>
    simp only [List.nil_append, List.lookup_cons, hk2k, List.lookup]
  | cons a t ih =>
    cases a with
    | mk a1 a2 =>
      simp only [List.cons_append, List.lookup_cons]
      cases hk2a : k2 == a1
      · exact ih
      · rfl

/-- Dict assignment leaves the binding of every other key unchanged. -/
lemma dictInsert_lookup_ne (m : Registry) (k k2 : String) (v : Embedding)
    (hne : k2 ≠ k) :
    (dictInsert m k v).lookup k2 = m.lookup k2 := by
  unfold dictInsert
  by_cases h : m.any (fun p => p.1 == k)
  · rw [if_pos h]
    exact lookup_map_overwrite m k k2 v hne
  · rw [if_neg h]
    exact lookup_append_single m k k2 v hne

/-- The distance list consumed by numpy.argmin, read entrywise. -/
lemma dists_getD (m : Registry) (u : Embedding) (j : Nat) (hj : j < m.length) :
    ((m.map Prod.snd).map (fun e => sqDist e u)).getD j 0 =
      sqDist (m.getD j ("", [])).2 u := by
  rw [getD_map_dist u (m.map Prod.snd) j (by simpa using hj), getD_map_snd m j hj]

/-! ### Claim theorems -/

/-- C1 (behavior of the code at the failing input of the claim): for
every registry — the non-empty ones of the claim included — and every
probe image in which detection finds at least one face, check_faces
raises ValueError instead of labeling any face.  The known_encodings map
iterator of recognition.py line 96 is built once, before the per-face
loop, and the compare_faces call of the first iteration iterates it to
its end; face_distance therefore receives an empty sequence and
numpy.argmin of an empty sequence raises.  The Euclidean-distance
minimization and match-flag labeling the claim describes are never
reached, for any match policy and any registry. -/
theorem check_faces_any_face_raises
    (compare : List Embedding → Embedding → List Bool) (mappings : Registry)
    (locs : List Box) (u : Embedding) (rest : List Embedding) :
    check_faces compare mappings locs (u :: rest) =
      Except.error PyError.valueError := rfl

/-- C7 (behavior of the code at the failing input of the claim): the two
known identities A and B carry the same embedding [0,0], so they are at
exactly equal minimum Euclidean distance from the probe embedding [1,1];
instead of deterministically selecting the first-inserted identity A,
check_faces raises ValueError for every match policy, by the same
exhaustion of the one-shot known_encodings iterator of recognition.py
line 96: the tie-breaking selection is unreachable.  (numpy.argmin keeps
the first index on ties, but the code never reaches that argmin with a
non-empty distance list.) -/
theorem check_faces_tie_raises
    (compare : List Embedding → Embedding → List Bool) (locs : List Box) :
    check_faces compare [("A", [0, 0]), ("B", [0, 0])] locs [[1, 1]] =
      Except.error PyError.valueError := rfl

/-- C2 (behavior of the code at the failing input of the claim): with an
empty registry and one detected face, check_faces raises the ValueError
of numpy.argmin on an empty sequence instead of returning the label
"Unknown" for the face. -/
theorem check_faces_empty_registry_raises
    (compare : List Embedding → Embedding → List Bool) (u : Embedding)
    (locs : List Box) :
    check_faces compare [] locs [u] = Except.error PyError.valueError := rfl

/-- C10: when the detection collaborator finds zero faces in the probe
image (empty face locations, hence empty face encodings), check_faces
returns two empty sequences and raises no error, for every registry and
every match policy: the result is a constant that never consults the
known embeddings. -/
theorem check_faces_no_faces
    (compare : List Embedding → Embedding → List Bool) (mappings : Registry) :
    check_faces compare mappings [] [] = Except.ok ([], []) := rfl

/-- C9: check_faces never modifies the registry.  The source only ever
reads the mappings dict (list(mappings.items())), so in the explicit-state
embedding the registry coming back from a successful call is exactly the
one passed in. -/
theorem check_faces_preserves_registry
    (compare : List Embedding → Embedding → List Bool) (mappings : Registry)
    (locs : List Box) (encs : List Embedding)
    (res : List String × List Box) (after : Registry)
    (h : check_faces_st compare mappings locs encs = Except.ok (res, after)) :
    after = mappings := by
  unfold check_faces_st at h
  cases hl : checkFacesLoop compare mappings (mappings.map Prod.snd) encs with
  | ok ids =>
    rw [hl] at h
    cases h
    rfl
  | error e =>
    rw [hl] at h
    cases h

/-- Witness for C9 on a concrete successful call. -/
theorem check_faces_preserves_registry_witness :
    check_faces_st (fun ks _ => ks.map (fun _ => true))
        [("A", [0])] [(1, 2, 3, 4)] [] =
      Except.ok (([], [(1, 2, 3, 4)]), [("A", [0])]) ∧
    ([("A", ([0] : Embedding))] : Registry) = [("A", [0])] :=
  ⟨rfl, check_faces_preserves_registry (fun ks _ => ks.map (fun _ => true))
    [("A", [0])] [(1, 2, 3, 4)] [] ([], [(1, 2, 3, 4)]) [("A", [0])] rfl⟩

/-- C3 (behavior of the code at the failing input of the claim): the
write-then-read round trip does not yield the embedding back.  Writing
embedding E under name N into a filesystem where the cache entry file
already exists (so that the rb+ open inside add_cache does not itself
raise) stores the raw tobytes serialization, and the following
get_cached, whose numpy.load requires the .npy format, raises ValueError
instead of returning E.  (On a filesystem without the entry the write
itself raises FileNotFoundError, so no round trip returns E.) -/
theorem cache_round_trip_raises (name cl : String) (E : Embedding) (d : FileData) :
    (add_cache [(encodingPath cl name, d)] name E cl).bind
      (fun fs => get_cached fs name cl) = Except.error PyError.valueError := by
  simp [add_cache, get_cached, fsWrite, List.lookup_cons, Except.bind]

/-- C6 (behavior of the code at the failing input of the claim): add_cache
opens the cache entry file with mode rb+, which does not create files, so
with no existing entry it raises FileNotFoundError instead of creating
the file; only when the entry already exists does it truncate and
overwrite it with the raw numeric bytes of E. -/
theorem add_cache_missing_file_raises (name cl : String) (E : Embedding)
    (d : FileData) :
    add_cache [] name E cl = Except.error PyError.osError ∧
    add_cache [(encodingPath cl name, d)] name E cl =
      Except.ok [(encodingPath cl name, FileData.raw E)] := by
  constructor
  · rfl
  · simp [add_cache, fsWrite, List.lookup_cons]

/-- C4 (behavior of the code at the failing input of the claim): loading
a directory holding the reference image alice.jpg invokes the embedding
collaborator zero times, on the first load and on the second alike.  The
extension test of the directory branch compares the single character
after the last dot against the full strings of IMG_EXTs and never
succeeds, so both loads skip the file and return the registry and the
cache filesystem unchanged, whatever the collaborator enc would answer:
the second load is in particular not a sequence of cache reads. -/
theorem load_directory_twice_never_calls_collaborator
    (enc : String → List Embedding) (m : Registry) (fs : FileSystem)
    (path cl : String) (cache : Bool) :
    load_images enc (PathKind.dir ["alice.jpg"]) (m, fs) path cache cl =
      Except.ok (m, fs) ∧
    (load_images enc (PathKind.dir ["alice.jpg"]) (m, fs) path cache cl).bind
      (fun st => load_images enc (PathKind.dir ["alice.jpg"]) st path cache cl) =
      Except.ok (m, fs) := by
  constructor
  · cases cache <;> rfl
  · cases cache <;> rfl

/-- C5 (behavior of the code at the failing input of the claim): visited
files carrying each recognized image extension (.jpg, .jpeg, .png) are
skipped exactly like a file with an unrecognized extension, instead of
being processed into the registry: the membership test
file[ext_idx+1] in IMG_EXTs compares a one-character string against the
full extension strings, so it never holds and load_images returns the
registry and filesystem unchanged without consulting the collaborator. -/
theorem recognized_extension_files_are_skipped
    (enc : String → List Embedding) (m : Registry) (fs : FileSystem)
    (path cl : String) (cache : Bool) :
    load_images enc
        (PathKind.dir ["alice.jpg", "bob.jpeg", "carol.png", "notes.txt"])
        (m, fs) path cache cl = Except.ok (m, fs) := by
  cases cache <;> rfl

/-- C8: loading the same image file twice into the same registry is
idempotent, and load_images merges into an existing mapping additively.
With caching disabled (the configuration in which the load path of the
source completes) and a registry whose keys are unique, as Python dicts
guarantee: the first load performs exactly one dict assignment, the
second load leaves the registry exactly as the first left it, the loaded
name holds exactly one entry, and every other key keeps the binding it
had before either load. -/
theorem load_same_file_twice_idempotent
    (enc : String → List Embedding) (m : Registry) (fs : FileSystem)
    (path cl : String) (m1 m2 : Registry) (fs1 fs2 : FileSystem)
    (hnodup : (m.map Prod.fst).Nodup)
    (h1 : load_images enc PathKind.file (m, fs) path false cl = Except.ok (m1, fs1))
    (h2 : load_images enc PathKind.file (m1, fs1) path false cl = Except.ok (m2, fs2)) :
    ∃ name emb, m1 = dictInsert m name emb ∧ m2 = m1 ∧
      m2.countP (fun p => p.1 == name) = 1 ∧
      ∀ k2, k2 ≠ name → m2.lookup k2 = m.lookup k2 := by
  unfold load_images load_images_file check_and_add at h1 h2
  dsimp only at h1 h2
  cases hr : pyRindex path '.' with
  | error e => rw [hr] at h1; simp at h1
  | ok extIdx =>
    rw [hr] at h1 h2
    dsimp only at h1 h2
    cases hc : pyCharAt path (extIdx + 1) with
    | error e => rw [hc] at h1; simp at h1
    | ok ch =>
      rw [hc] at h1 h2
      dsimp only at h1 h2
      cases hd : pyRindex (os_path_split path).2 '.' with
      | error e => rw [hd] at h1; simp at h1
      | ok dotIdx =>
        rw [hd] at h1 h2
        dsimp only at h1 h2
        cases he : firstEncoding
            (enc (os_path_join (os_path_split path).1 (os_path_split path).2)) with
        | error e => rw [he] at h1; simp at h1
        | ok emb =>
          rw [he] at h1 h2
          dsimp only at h1 h2
          simp only [Except.ok.injEq, Prod.mk.injEq] at h1 h2
          obtain ⟨hm1, hfs1⟩ := h1
          obtain ⟨hm2, hfs2⟩ := h2
          refine ⟨strTake (os_path_split path).2 dotIdx, emb, hm1.symm, ?_, ?_, ?_⟩
          · rw [← hm2, ← hm1, dictInsert_idem]
          · rw [← hm2, ← hm1, dictInsert_idem]
            exact dictInsert_countP m _ emb hnodup
          · intro k2 hk2
            rw [← hm2, ← hm1, dictInsert_idem]
            exact dictInsert_lookup_ne m _ k2 emb hk2

/-- Witness for C8: the file dir/alice.jpg loaded twice with a
collaborator returning the embedding [1], into a registry already holding
the identity bob. -/
theorem load_same_file_twice_idempotent_witness :
    (([("bob", ([5] : Embedding))] : Registry).map Prod.fst).Nodup ∧
    load_images (fun _ => [[1]]) PathKind.file ([("bob", [5])], []) "dir/alice.jpg"
        false ".cache" = Except.ok ([("bob", [5]), ("alice", [1])], []) ∧
    load_images (fun _ => [[1]]) PathKind.file ([("bob", [5]), ("alice", [1])], [])
        "dir/alice.jpg" false ".cache" =
      Except.ok ([("bob", [5]), ("alice", [1])], []) ∧
    ∃ name emb,
      ([("bob", ([5] : Embedding)), ("alice", [1])] : Registry) =
        dictInsert [("bob", [5])] name emb ∧
      ([("bob", ([5] : Embedding)), ("alice", [1])] : Registry) =
        [("bob", [5]), ("alice", [1])] ∧
      ([("bob", ([5] : Embedding)), ("alice", [1])] : Registry).countP
        (fun p => p.1 == name) = 1 ∧
      ∀ k2, k2 ≠ name →
        ([("bob", ([5] : Embedding)), ("alice", [1])] : Registry).lookup k2 =
          ([("bob", ([5] : Embedding))] : Registry).lookup k2 :=
  ⟨by decide, rfl, rfl,
    load_same_file_twice_idempotent (fun _ => [[1]]) [("bob", [5])] []
      "dir/alice.jpg" ".cache" [("bob", [5]), ("alice", [1])]
      [("bob", [5]), ("alice", [1])] [] [] (by decide) rfl rfl⟩

end R2Facial
